import Mathlib

/-!
Verification of the conversational lead-qualification pipeline
(`supabase/functions` edge function of the AI-SALES-AGENT repository).

The embedding models strings as `List Char`.  JavaScript `toLowerCase` is
modelled on ASCII letters (`lowChar`), JS regular-expression whitespace
`\s` by the ASCII whitespace characters (`isWsChar`), and JS numbers by
`ℚ` (with `Option ℚ` where `parseFloat` may produce `NaN`, modelled as
`none`).  Every definition in the "source embedding" section is a direct
translation of the corresponding function of the source file; the
`spec…` definitions restate the specification's words for comparison.
-/

set_option autoImplicit false

/- ------------------------------------------------------------------ -/
/- Definitions: string machinery and the source embedding.             -/
/- ------------------------------------------------------------------ -/

def lowChar : Char → Char
  | 'A' => 'a' | 'B' => 'b' | 'C' => 'c' | 'D' => 'd' | 'E' => 'e'
  | 'F' => 'f' | 'G' => 'g' | 'H' => 'h' | 'I' => 'i' | 'J' => 'j'
  | 'K' => 'k' | 'L' => 'l' | 'M' => 'm' | 'N' => 'n' | 'O' => 'o'
  | 'P' => 'p' | 'Q' => 'q' | 'R' => 'r' | 'S' => 's' | 'T' => 't'
  | 'U' => 'u' | 'V' => 'v' | 'W' => 'w' | 'X' => 'x' | 'Y' => 'y'
  | 'Z' => 'z'
  | c => c

def lowList (s : List Char) : List Char := s.map lowChar

def isWsChar (c : Char) : Bool :=
  c == ' ' || c == '\t' || c == '\n' || c == '\r' || c == '\x0b' || c == '\x0c'

def isDigitChar (c : Char) : Bool := '0' ≤ c && c ≤ '9'

def isWordChar (c : Char) : Bool :=
  ('a' ≤ c && c ≤ 'z') || ('A' ≤ c && c ≤ 'Z') || isDigitChar c || c == '_'

def begMatch : List Char → List Char → Bool
  | [], _ => true
  | _ :: _, [] => false
  | a :: p, b :: s => a == b && begMatch p s

def hasSub : List Char → List Char → Bool
  | [], p => begMatch p []
  | c :: t, p => begMatch p (c :: t) || hasSub t p

def begMatchCI : List Char → List Char → Bool
  | [], _ => true
  | _ :: _, [] => false
  | a :: p, b :: s => lowChar a == lowChar b && begMatchCI p s

def hasSubCI : List Char → List Char → Bool
  | [], p => begMatchCI p []
  | c :: t, p => begMatchCI p (c :: t) || hasSubCI t p

def stripCI : List Char → List Char → Option (List Char)
  | [], s => some s
  | _ :: _, [] => none
  | a :: p, b :: s => if lowChar a == lowChar b then stripCI p s else none

def trimWs (s : List Char) : List Char :=
  ((s.dropWhile isWsChar).reverse.dropWhile isWsChar).reverse

def SubP (w s : List Char) : Prop := ∃ u v, s = u ++ w ++ v

def OccCI (p s : List Char) : Prop := ∃ w, lowList w = lowList p ∧ SubP w s

structure Lead where
  name : List Char
  lead_score : Option Int
  total_messages : Int
deriving DecidableEq, Repr

def intentScores : List (String × Int) :=
  [ ("pricing_inquiry", 15)
  , ("demo_request", 25)
  , ("feature_inquiry", 10)
  , ("follow_up", 20)
  , ("not_interested", -30)
  , ("general_inquiry", 5) ]

def calculateLeadScore (lead : Lead) (messageCount : Nat) (intent : String) : Int :=
  let score0 : Int := lead.lead_score.getD 0
  let score1 : Int := score0 + ((intentScores.lookup intent).getD 5)
  let score2 : Int := score1 + min ((messageCount : Int) * 3) 20
  max 0 (min 100 score2)

def determineLeadStatus (score : Int) (intent : String) : String :=
  if intent = "not_interested" then "not_interested"
  else if 70 ≤ score then "hot"
  else if 40 ≤ score then "warm"
  else "cold"

def specDelta (intent : String) : Int :=
  if intent = "pricing_inquiry" then 15
  else if intent = "demo_request" then 25
  else if intent = "feature_inquiry" then 10
  else if intent = "follow_up" then 20
  else if intent = "not_interested" then -30
  else 5

def specScore (previous : Int) (intent : String) (n : Nat) : Int :=
  max 0 (min 100 (previous + specDelta intent + min ((n : Int) * 3) 20))

def specStatus (score : Int) (intent : String) : String :=
  if intent = "not_interested" then "not_interested"
  else if 70 ≤ score then "hot"
  else if 40 ≤ score then "warm"
  else "cold"

structure IntentEntry where
  intent : String
  keywords : List (List Char)
deriving DecidableEq, Repr

structure IntentResult where
  intent : String
  confidence : Option ℚ
  keywords : List (List Char)
deriving DecidableEq, Repr

def apos : Char := Char.ofNat 39

def intentsTable : List IntentEntry :=
  [ ⟨"pricing_inquiry",
      [ "price".data, "pricing".data, "cost".data, "how much".data, "expensive".data,
        "cheap".data, "rate".data, "fee".data, "charge".data ]⟩
  , ⟨"demo_request",
      [ "demo".data, "demonstration".data, "show me".data, "see it".data, "trial".data,
        "test".data, "preview".data ]⟩
  , ⟨"feature_inquiry",
      [ "feature".data, "functionality".data, "capability".data, "can it".data,
        "does it".data, "how does".data, "what can".data, "integration".data ]⟩
  , ⟨"follow_up",
      [ "call".data, "contact".data, "reach out".data, "follow up".data, "speak".data,
        "talk".data, "discuss".data, "meeting".data, "schedule".data ]⟩
  , ⟨"not_interested",
      [ "not interested".data, "no thank".data, "not now".data, "maybe later".data,
        ("don".data ++ [apos] ++ "t need".data), "not looking".data ]⟩ ]

def entryMatches (lower : List Char) (e : IntentEntry) : List (List Char) :=
  e.keywords.filter (fun kw => hasSub lower kw)

def entryConf (lower : List Char) (e : IntentEntry) : ℚ :=
  min (19/20) (((entryMatches lower e).length : ℚ) * (3/10) + 1/2)

def entryScore (lower : List Char) (e : IntentEntry) : ℚ :=
  if 0 < (entryMatches lower e).length then entryConf lower e else 0

def detectStep (lower : List Char) (st : ℚ × String × List (List Char))
    (e : IntentEntry) : ℚ × String × List (List Char) :=
  let ms := entryMatches lower e
  if 0 < ms.length then
    let conf := min (19/20 : ℚ) ((ms.length : ℚ) * (3/10) + 1/2)
    if st.1 < conf then (conf, e.intent, ms) else st
  else st

def detectIntentRuleBased (message : List Char) : IntentResult :=
  let lower := lowList message
  let r := List.foldl (detectStep lower) (0, "general_inquiry", []) intentsTable
  { intent := r.2.1, confidence := some (if r.1 = 0 then 3/5 else r.1), keywords := r.2.2 }

def tplPricing (lead : Lead) : List Char :=
  "Hi ".data ++ lead.name ++
  "! Our pricing is flexible and starts from ₹999/month for the starter plan. We also have Pro (₹2,999/month) and Enterprise (custom pricing) plans. Would you like me to share a detailed pricing breakdown or schedule a demo?".data

def tplDemo (lead : Lead) : List Char :=
  "That".data ++ [apos] ++ "s great, ".data ++ lead.name ++ "! I".data ++ [apos] ++
  "d love to show you our product. We can schedule a personalized demo at your convenience. What day and time works best for you this week?".data

def tplFeature (lead : Lead) : List Char :=
  "Hi ".data ++ lead.name ++
  "! Our platform includes powerful features like AI-powered analytics, real-time collaboration, automated workflows, and seamless integrations with 50+ tools. Which specific feature are you most interested in learning about?".data

def tplFollowUp (lead : Lead) : List Char :=
  "Absolutely, ".data ++ lead.name ++ "! I".data ++ [apos] ++
  "ll have one of our sales representatives reach out to you shortly. Can you confirm the best number and time to reach you?".data

def tplNotInterested (lead : Lead) : List Char :=
  "No problem at all, ".data ++ lead.name ++ "! I understand timing isn".data ++ [apos] ++
  "t right. Feel free to reach out whenever you".data ++ [apos] ++
  "re ready. Have a great day!".data

def tplGeneral (lead : Lead) : List Char :=
  "Hi ".data ++ lead.name ++ "! Thanks for reaching out. I".data ++ [apos] ++
  "m here to help! Could you tell me more about what you".data ++ [apos] ++
  "re looking for? I can provide information about pricing, features, or schedule a demo for you.".data

def responseTemplates (lead : Lead) : List (String × List Char) :=
  [ ("pricing_inquiry", tplPricing lead)
  , ("demo_request", tplDemo lead)
  , ("feature_inquiry", tplFeature lead)
  , ("follow_up", tplFollowUp lead)
  , ("not_interested", tplNotInterested lead)
  , ("general_inquiry", tplGeneral lead) ]

def generateRuleBasedResponse (intent : String) (lead : Lead) : List Char :=
  ((responseTemplates lead).lookup intent).getD (tplGeneral lead)

def nextActions : List (String × String) :=
  [ ("pricing_inquiry", "offer_demo")
  , ("demo_request", "schedule_demo")
  , ("feature_inquiry", "share_documentation")
  , ("follow_up", "schedule_call")
  , ("not_interested", "mark_cold")
  , ("general_inquiry", "continue_conversation") ]

def determineNextAction (intent : String) : String :=
  (nextActions.lookup intent).getD "continue_conversation"

structure ChatMsg where
  message : List Char
  sender : String
deriving DecidableEq, Repr

def recentMessagesQuery (turns : List ChatMsg) : List ChatMsg :=
  (turns.reverse).take 5

def conversationHistoryOf (turns : List ChatMsg) : List ChatMsg :=
  (recentMessagesQuery turns).reverse

structure ExchangeResponse where
  reply : List Char
  intent : String
  confidence : Option ℚ
  next_action : String
  lead_score : Int
  lead_status : String
deriving DecidableEq, Repr

def handleExchangeRuleBased (lead : Lead) (conversationHistory : List ChatMsg)
    (message : List Char) : ExchangeResponse :=
  let intentResult := detectIntentRuleBased message
  let aiReply := generateRuleBasedResponse intentResult.intent lead
  let nextAction := determineNextAction intentResult.intent
  let newScore := calculateLeadScore lead (conversationHistory.length + 1) intentResult.intent
  let newStatus := determineLeadStatus newScore intentResult.intent
  ⟨aiReply, intentResult.intent, intentResult.confidence, nextAction, newScore, newStatus⟩

def splitNl : List Char → List (List Char)
  | [] => [[]]
  | '\n' :: t => [] :: splitNl t
  | c :: t =>
    match splitNl t with
    | [] => [[c]]
    | l :: ls => (c :: l) :: ls

def splitLines : List Char → List (List Char)
  | [] => [[]]
  | '\r' :: '\n' :: t => [] :: splitLines t
  | '\n' :: t => [] :: splitLines t
  | c :: t =>
    match splitLines t with
    | [] => [[c]]
    | l :: ls => (c :: l) :: ls

def joinSp : List (List Char) → List Char
  | [] => []
  | [l] => l
  | l :: ls => l ++ ' ' :: joinSp ls

def isJunkChar (c : Char) : Bool :=
  isWsChar c || c == '.' || c == ',' || c == ':' || c == ';' || c == '-'

def stripTrailJunk (s : List Char) : List Char :=
  (s.reverse.dropWhile isJunkChar).reverse

def isLineTerm (c : Char) : Bool := c == '\n' || c == '\r'

def keepLine (line : List Char) : Bool :=
  let t := trimWs line
  !(t.isEmpty) && !(hasSubCI t "suggested".data) && !(hasSubCI t "next action".data)

def labelTailPat (lit : List Char) (s : List Char) : Bool :=
  match stripCI lit s with
  | some (c :: r) => (c == ':' || isWsChar c) && r.all (fun x => !(isLineTerm x))
  | _ => false

def numberedSuggestedPat (seps : List Char) (s : List Char) : Bool :=
  let ds := s.takeWhile isDigitChar
  let r1 := (s.dropWhile isDigitChar).dropWhile isWsChar
  match ds, r1 with
  | [], _ => false
  | _ :: _, c :: r2 => seps.contains c && begMatchCI "suggested".data (r2.dropWhile isWsChar)
  | _, [] => false

def searchFromB (p : List Char → Bool) : List Char → Option Nat
  | [] => if p [] then some 0 else none
  | c :: t => if p (c :: t) then some 0 else (searchFromB p t).map (· + 1)

def cleanupSearch (reply : List Char) : Option Nat :=
  let pats : List (List Char → Bool) :=
    [ labelTailPat "suggested next action for sales rep".data
    , labelTailPat "suggested next action".data
    , labelTailPat "next action".data
    , numberedSuggestedPat ['.', ')']
    , numberedSuggestedPat [':', '-'] ]
  pats.foldl (fun acc p =>
    match acc, searchFromB p reply with
    | none, r => r
    | some i, none => some i
    | some i, some j => some (min i j)) none

def cleanupReply (reply0 : List Char) : List Char :=
  let reply1 :=
    match cleanupSearch reply0 with
    | some i => trimWs (reply0.take i)
    | none => reply0
  let kept := (splitLines reply1).filter keepLine
  trimWs (stripTrailJunk (trimWs (joinSp kept)))

def scanFor (f : List Char → Option (List Char)) : List Char → Option (List Char)
  | [] => f []
  | c :: t =>
    match f (c :: t) with
    | some r => some r
    | none => scanFor f t

def matchIntentLabel (content : List Char) : Option (List Char) :=
  scanFor (fun s =>
    match stripCI "intent:".data s with
    | some r =>
      let w := (r.dropWhile isWsChar).takeWhile isWordChar
      if w.isEmpty then none else some w
    | none => none) content

def matchConfLabel (content : List Char) : Option (List Char) :=
  scanFor (fun s =>
    match stripCI "confidence:".data s with
    | some r =>
      let w := (r.dropWhile isWsChar).takeWhile (fun c => isDigitChar c || c == '.')
      if w.isEmpty then none else some w
    | none => none) content

def lazyCapture (stop : List Char → Bool) : List Char → List Char
  | [] => []
  | c :: t => c :: (if stop t then [] else lazyCapture stop t)

def stopNextAction (u : List Char) : Bool := begMatchCI "next action:".data u || u.isEmpty

def stopEnd (u : List Char) : Bool := u.isEmpty

def matchTailCapture (lit : List Char) (stop : List Char → Bool)
    (content : List Char) : Option (List Char) :=
  scanFor (fun s =>
    match stripCI lit s with
    | some t =>
      if t.isEmpty then none
      else
        let rest := t.dropWhile isWsChar
        if rest.isEmpty then
          match t.reverse with
          | x :: _ => some [x]
          | [] => none
        else some (lazyCapture stop rest)
    | none => none) content

def parseFloatDD (s : List Char) : Option ℚ :=
  let natVal : List Char → Nat := fun ds => ds.foldl (fun a c => a * 10 + (c.toNat - 48)) 0
  let ip := s.takeWhile isDigitChar
  match s.dropWhile isDigitChar with
  | '.' :: r2 =>
    let fp := r2.takeWhile isDigitChar
    if ip.isEmpty && fp.isEmpty then none
    else some ((natVal ip : ℚ) + mkRat (natVal fp) (10 ^ fp.length))
  | _ => if ip.isEmpty then none else some ((natVal ip : ℚ))

def parseAIContent (message : List Char) (lead : Lead) (content : List Char) :
    IntentResult × List Char × String :=
  let intentM := matchIntentLabel content
  let confM := matchConfLabel content
  let replyM := matchTailCapture "response:".data stopNextAction content
  let actionM := matchTailCapture "next action:".data stopEnd content
  let intent : String :=
    match intentM with
    | some w => String.mk (w.map lowChar)
    | none => (detectIntentRuleBased message).intent
  let confidence : Option ℚ :=
    match confM with
    | some cap => parseFloatDD cap
    | none => some (3/4)
  let nextAction : String :=
    match actionM with
    | some cap => String.mk (trimWs cap)
    | none => determineNextAction intent
  let reply0 : List Char :=
    match replyM with
    | some cap => trimWs cap
    | none =>
      trimWs (joinSp ((splitNl content).filter (fun l =>
        !(begMatchCI "intent:".data l || begMatchCI "confidence:".data l
          || begMatchCI "next action:".data l))))
  let reply := cleanupReply reply0
  (⟨intent, confidence, []⟩,
   (if reply.isEmpty then generateRuleBasedResponse intent lead else reply),
   nextAction)

structure OAMessage where
  content : Option (List Char)
deriving DecidableEq, Repr

structure OAChoice where
  message : Option OAMessage
deriving DecidableEq, Repr

structure OAPayload where
  choices : Option (List OAChoice)
deriving DecidableEq, Repr

inductive FetchOutcome where
  | netError (e : List Char)
  | httpErr (status : List Char)
  | httpOk (parsed : Option OAPayload)
deriving DecidableEq, Repr

def generateAIResponse (message : List Char) (lead : Lead) (outcome : FetchOutcome) :
    Except (List Char) (IntentResult × List Char × String) :=
  match outcome with
  | .netError e => .error e
  | .httpErr status => .error ("OpenAI API error: ".data ++ status)
  | .httpOk none => .error "Failed to parse OpenAI API response as JSON".data
  | .httpOk (some data) =>
    match data.choices with
    | none => .error "Invalid response from OpenAI API: missing choices or message".data
    | some [] => .error "Invalid response from OpenAI API: missing choices or message".data
    | some (c0 :: _) =>
      match c0.message with
      | none => .error "Invalid response from OpenAI API: missing choices or message".data
      | some m =>
        match m.content with
        | none => .error "Invalid response from OpenAI API: missing message content".data
        | some content =>
          if content.isEmpty then
            .error "Invalid response from OpenAI API: missing message content".data
          else .ok (parseAIContent message lead content)

def ruleBasedTriple (message : List Char) (lead : Lead) :
    IntentResult × List Char × String :=
  let intentResult := detectIntentRuleBased message
  (intentResult, generateRuleBasedResponse intentResult.intent lead,
   determineNextAction intentResult.intent)

def resolveResponder (hasKey : Bool) (message : List Char) (lead : Lead)
    (outcome : FetchOutcome) : IntentResult × List Char × String :=
  if hasKey then
    match generateAIResponse message lead outcome with
    | .ok r => r
    | .error _ => ruleBasedTriple message lead
  else ruleBasedTriple message lead

/- ------------------------------------------------------------------ -/
/- Theorems: helper lemmas and the claim theorems.                     -/
/- ------------------------------------------------------------------ -/

theorem calculateLeadScore_eq_spec (lead : Lead) (intent : String) (n : Nat) :
    calculateLeadScore lead n intent = specScore (lead.lead_score.getD 0) intent n := by
  unfold calculateLeadScore specScore specDelta intentScores
  by_cases h1 : intent = "pricing_inquiry"
  · simp [h1, List.lookup]
  by_cases h2 : intent = "demo_request"
  · simp [h1, h2, List.lookup]
  by_cases h3 : intent = "feature_inquiry"
  · simp [h1, h2, h3, List.lookup]
  by_cases h4 : intent = "follow_up"
  · simp [h1, h2, h3, h4, List.lookup]
  by_cases h5 : intent = "not_interested"
  · simp [h1, h2, h3, h4, h5, List.lookup]
  by_cases h6 : intent = "general_inquiry"
  · simp [h1, h2, h3, h4, h5, h6, List.lookup]
  · simp [List.lookup, h1, h2, h3, h4, h5, h6,
      beq_eq_false_iff_ne.mpr h1, beq_eq_false_iff_ne.mpr h2,
      beq_eq_false_iff_ne.mpr h3, beq_eq_false_iff_ne.mpr h4,
      beq_eq_false_iff_ne.mpr h5, beq_eq_false_iff_ne.mpr h6]

theorem c1_scorer_clamped_formula :
    (∀ (lead : Lead) (i : String) (n : Nat),
        calculateLeadScore lead n i = specScore (lead.lead_score.getD 0) i n
        ∧ 0 ≤ calculateLeadScore lead n i
        ∧ calculateLeadScore lead n i ≤ 100)
    ∧ calculateLeadScore ⟨"Ann".data, some 95, 4⟩ 5 "demo_request" = 100
    ∧ calculateLeadScore ⟨"Ann".data, some 5, 0⟩ 1 "not_interested" = 0 := by
  refine ⟨fun lead i n => ⟨calculateLeadScore_eq_spec lead i n, ?_, ?_⟩, by decide, by decide⟩
  · rw [calculateLeadScore_eq_spec]
    exact le_max_left 0 _
  · rw [calculateLeadScore_eq_spec]
    exact max_le (by norm_num) (min_le_left _ _)

theorem c2_status_bands :
    (∀ s : Int, determineLeadStatus s "not_interested" = "not_interested")
    ∧ (∀ (s : Int) (i : String), i ≠ "not_interested" →
        ((70 ≤ s → determineLeadStatus s i = "hot")
          ∧ (40 ≤ s → s < 70 → determineLeadStatus s i = "warm")
          ∧ (s < 40 → determineLeadStatus s i = "cold")))
    ∧ (∀ (s : Int) (i : String), determineLeadStatus s i ≠ "converted")
    ∧ determineLeadStatus 90 "not_interested" = "not_interested"
    ∧ determineLeadStatus 0 "not_interested" = "not_interested" := by
  refine ⟨?_, ?_, ?_, by decide, by decide⟩
  · intro s; simp [determineLeadStatus]
  · intro s i hi
    refine ⟨fun h70 => ?_, fun h40 h70 => ?_, fun h40 => ?_⟩
    · simp [determineLeadStatus, hi, h70]
    · have h70' : ¬ (70 ≤ s) := by omega
      simp [determineLeadStatus, hi, h40, h70']
    · have h70' : ¬ (70 ≤ s) := by omega
      have h40' : ¬ (40 ≤ s) := by omega
      simp [determineLeadStatus, hi, h70', h40']
  · intro s i
    unfold determineLeadStatus
    split_ifs <;> decide

theorem c2_status_bands_witness :
    determineLeadStatus 80 "demo_request" = "hot"
    ∧ determineLeadStatus 55 "demo_request" = "warm"
    ∧ determineLeadStatus 10 "demo_request" = "cold" :=
  ⟨(c2_status_bands.2.1 80 "demo_request" (by decide)).1 (by decide),
   (c2_status_bands.2.1 55 "demo_request" (by decide)).2.1 (by decide) (by decide),
   (c2_status_bands.2.1 10 "demo_request" (by decide)).2.2 (by decide)⟩

theorem entryConf_nonneg (lower : List Char) (e : IntentEntry) :
    0 ≤ entryConf lower e := by
  unfold entryConf
  refine le_min (by norm_num) (by positivity)

theorem entryConf_ge (lower : List Char) (e : IntentEntry)
    (h : 0 < (entryMatches lower e).length) : 4/5 ≤ entryConf lower e := by
  unfold entryConf
  have h1 : (1 : ℚ) ≤ ((entryMatches lower e).length : ℚ) := by exact_mod_cast h
  refine le_min (by norm_num) (by nlinarith)

theorem entryScore_nonneg (lower : List Char) (e : IntentEntry) :
    0 ≤ entryScore lower e := by
  unfold entryScore
  split
  · exact entryConf_nonneg lower e
  · exact le_refl 0

theorem entryScore_le_zero (lower : List Char) (e : IntentEntry)
    (h : entryScore lower e ≤ 0) : entryMatches lower e = [] := by
  by_cases hm : 0 < (entryMatches lower e).length
  · exfalso
    have h4 := entryConf_ge lower e hm
    have : entryScore lower e = entryConf lower e := by simp [entryScore, hm]
    rw [this] at h
    linarith
  · exact List.length_eq_zero.mp (by omega)

theorem detect_foldl_spec (lower : List Char) :
    ∀ (l : List IntentEntry) (st : ℚ × String × List (List Char)), 0 ≤ st.1 →
    (List.foldl (detectStep lower) st l = st ∧ ∀ e ∈ l, entryScore lower e ≤ st.1)
    ∨ (∃ pre e post, l = pre ++ e :: post
        ∧ List.foldl (detectStep lower) st l
            = (entryScore lower e, e.intent, entryMatches lower e)
        ∧ st.1 < entryScore lower e
        ∧ (∀ x ∈ pre, entryScore lower x < entryScore lower e)
        ∧ (∀ x ∈ post, entryScore lower x ≤ entryScore lower e)) := by
  intro l
  induction l with
  | nil =>
    intro st _
    left
    exact ⟨rfl, by simp⟩
  | cons e t ih =>
    intro st hst
    by_cases hm : 0 < (entryMatches lower e).length
    · have hscore : entryScore lower e = entryConf lower e := by simp [entryScore, hm]
      by_cases hlt : st.1 < entryConf lower e
      · have hstep : detectStep lower st e
            = (entryConf lower e, e.intent, entryMatches lower e) := by
          have hd : detectStep lower st e
              = if st.1 < entryConf lower e then
                  (entryConf lower e, e.intent, entryMatches lower e) else st := by
            simp only [detectStep, entryConf, if_pos hm]
          rw [hd, if_pos hlt]
        have hfold : List.foldl (detectStep lower) st (e :: t)
            = List.foldl (detectStep lower)
                (entryConf lower e, e.intent, entryMatches lower e) t := by
          rw [List.foldl_cons, hstep]
        rcases ih (entryConf lower e, e.intent, entryMatches lower e)
            (entryConf_nonneg lower e) with ⟨heq, hall⟩ | ⟨pre, x, post, hsplit, heq, hgt, hpre, hpost⟩
        · right
          refine ⟨[], e, t, by simp, ?_, ?_, by simp, ?_⟩
          · rw [hfold, heq, hscore]
          · rw [hscore]; exact hlt
          · intro x hx
            have := hall x hx
            rw [hscore]
            simpa using this
        · right
          refine ⟨e :: pre, x, post, by rw [hsplit]; rfl, ?_, ?_, ?_, hpost⟩
          · rw [hfold, heq]
          · calc st.1 < entryConf lower e := hlt
              _ < entryScore lower x := by simpa using hgt
          · intro y hy
            rcases List.mem_cons.mp hy with hy | hy
            · subst hy
              rw [hscore]
              simpa using hgt
            · exact hpre y hy
      · have hstep : detectStep lower st e = st := by
          have hd : detectStep lower st e
              = if st.1 < entryConf lower e then
                  (entryConf lower e, e.intent, entryMatches lower e) else st := by
            simp only [detectStep, entryConf, if_pos hm]
          rw [hd, if_neg hlt]
        have hfold : List.foldl (detectStep lower) st (e :: t)
            = List.foldl (detectStep lower) st t := by
          rw [List.foldl_cons, hstep]
        rcases ih st hst with ⟨heq, hall⟩ | ⟨pre, x, post, hsplit, heq, hgt, hpre, hpost⟩
        · left
          refine ⟨by rw [hfold, heq], ?_⟩
          intro y hy
          rcases List.mem_cons.mp hy with hy | hy
          · subst hy
            rw [hscore]
            exact le_of_not_lt hlt
          · exact hall y hy
        · right
          refine ⟨e :: pre, x, post, by rw [hsplit]; rfl, by rw [hfold, heq], hgt, ?_, hpost⟩
          intro y hy
          rcases List.mem_cons.mp hy with hy | hy
          · subst hy
            rw [hscore]
            exact lt_of_le_of_lt (le_of_not_lt hlt) hgt
          · exact hpre y hy
    · have hstep : detectStep lower st e = st := by
        simp only [detectStep, if_neg hm]
      have hzero : entryScore lower e = 0 := by simp [entryScore, hm]
      have hfold : List.foldl (detectStep lower) st (e :: t)
          = List.foldl (detectStep lower) st t := by
        rw [List.foldl_cons, hstep]
      rcases ih st hst with ⟨heq, hall⟩ | ⟨pre, x, post, hsplit, heq, hgt, hpre, hpost⟩
      · left
        refine ⟨by rw [hfold, heq], ?_⟩
        intro y hy
        rcases List.mem_cons.mp hy with hy | hy
        · subst hy
          rw [hzero]
          exact hst
        · exact hall y hy
      · right
        refine ⟨e :: pre, x, post, by rw [hsplit]; rfl, by rw [hfold, heq], hgt, ?_, hpost⟩
        intro y hy
        rcases List.mem_cons.mp hy with hy | hy
        · subst hy
          rw [hzero]
          calc (0:ℚ) ≤ st.1 := hst
            _ < entryScore lower x := hgt
        · exact hpre y hy

theorem c3_rule_classifier_argmax (msg : List Char) :
    ((∀ e ∈ intentsTable, entryMatches (lowList msg) e = [])
      ∧ detectIntentRuleBased msg = ⟨"general_inquiry", some (3/5), []⟩)
    ∨ (∃ pre e post, intentsTable = pre ++ e :: post
        ∧ 0 < (entryMatches (lowList msg) e).length
        ∧ (detectIntentRuleBased msg).intent = e.intent
        ∧ (detectIntentRuleBased msg).keywords = entryMatches (lowList msg) e
        ∧ (detectIntentRuleBased msg).confidence
            = some (min (19/20) (((entryMatches (lowList msg) e).length : ℚ) * (3/10) + 1/2))
        ∧ (∀ x ∈ pre, entryScore (lowList msg) x < entryScore (lowList msg) e)
        ∧ (∀ x ∈ intentsTable, entryScore (lowList msg) x ≤ entryScore (lowList msg) e)) := by
  rcases detect_foldl_spec (lowList msg) intentsTable (0, "general_inquiry", [])
      (le_refl 0) with ⟨heq, hall⟩ | ⟨pre, e, post, hsplit, heq, hgt, hpre, hpost⟩
  · left
    constructor
    · intro e he
      exact entryScore_le_zero _ e (hall e he)
    · simp [detectIntentRuleBased, heq]
  · right
    have hm : 0 < (entryMatches (lowList msg) e).length := by
      by_contra hc
      have hnil : entryMatches (lowList msg) e = [] := List.length_eq_zero.mp (by omega)
      have : entryScore (lowList msg) e = 0 := by simp [entryScore, hnil]
      rw [this] at hgt
      exact absurd hgt (by norm_num)
  
    have hscore : entryScore (lowList msg) e = entryConf (lowList msg) e := by
      simp [entryScore, hm]
    have hne : entryScore (lowList msg) e ≠ 0 := by
      have h4 := entryConf_ge (lowList msg) e hm
      rw [hscore]
      intro hzero
      rw [hzero] at h4
      norm_num at h4
    refine ⟨pre, e, post, hsplit, hm, ?_, ?_, ?_, hpre, ?_⟩
    · simp [detectIntentRuleBased, heq]
    · simp [detectIntentRuleBased, heq]
    · simp only [detectIntentRuleBased, heq]
      rw [if_neg hne, hscore]
      rfl
    · intro x hx
      rw [hsplit] at hx
      rcases List.mem_append.mp hx with hx | hx
      · exact le_of_lt (hpre x hx)
      · rcases List.mem_cons.mp hx with hx | hx
        · subst hx
          exact le_refl _
        · exact hpost x hx

theorem c6_no_match_general (msg : List Char)
    (h : ∀ e ∈ intentsTable, entryMatches (lowList msg) e = []) :
    detectIntentRuleBased msg = ⟨"general_inquiry", some (3/5), []⟩ := by
  rcases detect_foldl_spec (lowList msg) intentsTable (0, "general_inquiry", [])
      (le_refl 0) with ⟨heq, _⟩ | ⟨pre, e, post, hsplit, heq, hgt, _, _⟩
  · simp [detectIntentRuleBased, heq]
  · exfalso
    have he : e ∈ intentsTable := by
      rw [hsplit]
      exact List.mem_append.mpr (Or.inr (List.mem_cons_self e post))
    have : entryScore (lowList msg) e = 0 := by simp [entryScore, h e he]
    rw [this] at hgt
    exact absurd hgt (by norm_num)

theorem c6_no_match_general_witness :
    (∀ e ∈ intentsTable, entryMatches (lowList "hello".data) e = [])
    ∧ detectIntentRuleBased "hello".data = ⟨"general_inquiry", some (3/5), []⟩ :=
  ⟨by decide, c6_no_match_general "hello".data (by decide)⟩

theorem detectIntent_mem (msg : List Char) :
    (detectIntentRuleBased msg).intent ∈
      ["general_inquiry", "pricing_inquiry", "demo_request",
       "feature_inquiry", "follow_up", "not_interested"] := by
  rcases detect_foldl_spec (lowList msg) intentsTable (0, "general_inquiry", [])
      (le_refl 0) with ⟨heq, _⟩ | ⟨pre, e, post, hsplit, heq, _, _, _⟩
  · simp [detectIntentRuleBased, heq]
  · have he : e ∈ intentsTable := by
      rw [hsplit]
      exact List.mem_append.mpr (Or.inr (List.mem_cons_self e post))
    have hint : (detectIntentRuleBased msg).intent = e.intent := by
      simp [detectIntentRuleBased, heq]
    rw [hint]
    have hall : ∀ x ∈ intentsTable, x.intent ∈
        ["general_inquiry", "pricing_inquiry", "demo_request",
         "feature_inquiry", "follow_up", "not_interested"] := by decide
    exact hall e he

theorem detectIntent_ne_empty (msg : List Char) :
    (detectIntentRuleBased msg).intent ≠ "" := by
  have h := detectIntent_mem msg
  simp only [List.mem_cons, List.not_mem_nil, or_false] at h
  rcases h with h | h | h | h | h | h <;> rw [h] <;> decide

theorem c4_orchestrator_turn_count :
    (∀ (lead : Lead) (hist : List ChatMsg) (msg : List Char),
        (handleExchangeRuleBased lead hist msg).lead_score
          = specScore (lead.lead_score.getD 0) (detectIntentRuleBased msg).intent
              (hist.length + 1)
        ∧ (handleExchangeRuleBased lead hist msg).lead_status
          = determineLeadStatus
              (calculateLeadScore lead (hist.length + 1) (detectIntentRuleBased msg).intent)
              (detectIntentRuleBased msg).intent)
    ∧ (detectIntentRuleBased "I want a demo".data).intent = "demo_request"
    ∧ (handleExchangeRuleBased ⟨"Ann".data, some 55, 4⟩
        [⟨"m1".data, "user"⟩, ⟨"r1".data, "agent"⟩, ⟨"m2".data, "user"⟩, ⟨"r2".data, "agent"⟩]
        "I want a demo".data).lead_score = 95
    ∧ (handleExchangeRuleBased ⟨"Ann".data, some 55, 4⟩
        [⟨"m1".data, "user"⟩, ⟨"r1".data, "agent"⟩, ⟨"m2".data, "user"⟩, ⟨"r2".data, "agent"⟩]
        "I want a demo".data).lead_status = "hot" := by
  refine ⟨fun lead hist msg => ⟨?_, rfl⟩,
    by with_unfolding_all decide, by with_unfolding_all decide, by with_unfolding_all decide⟩
  simp [handleExchangeRuleBased, calculateLeadScore_eq_spec]

theorem c10_engagement_cap (turns : List ChatMsg) (lead : Lead) (msg : List Char) :
    (handleExchangeRuleBased lead (conversationHistoryOf turns) msg).lead_score
      = calculateLeadScore lead ((conversationHistoryOf turns).length + 1)
          (detectIntentRuleBased msg).intent
    ∧ (conversationHistoryOf turns).length + 1 ≤ 6
    ∧ min ((((conversationHistoryOf turns).length + 1 : Nat) : Int) * 3) 20
        = (((conversationHistoryOf turns).length + 1 : Nat) : Int) * 3
    ∧ (((conversationHistoryOf turns).length + 1 : Nat) : Int) * 3 ≤ 18
    ∧ (((conversationHistoryOf turns).length + 1 : Nat) : Int) * 3 < 20 := by
  have hlen : (conversationHistoryOf turns).length ≤ 5 := by
    simp only [conversationHistoryOf, recentMessagesQuery, List.length_reverse,
      List.length_take]
    omega
  refine ⟨rfl, by omega, ?_, ?_, ?_⟩
  · have : (((conversationHistoryOf turns).length + 1 : Nat) : Int) * 3 ≤ 18 := by
      omega
    omega
  · omega
  · omega

theorem scanFor_pred (f : List Char → Option (List Char)) (P : List Char → Prop)
    (hf : ∀ s r, f s = some r → P r) :
    ∀ s r, scanFor f s = some r → P r := by
  intro s
  induction s with
  | nil =>
    intro r h
    exact hf [] r h
  | cons c t ih =>
    intro r h
    unfold scanFor at h
    cases hf2 : f (c :: t) with
    | some r2 =>
      rw [hf2] at h
      cases h
      exact hf (c :: t) r hf2
    | none =>
      rw [hf2] at h
      exact ih r h

theorem matchIntentLabel_ne_nil (content w : List Char)
    (h : matchIntentLabel content = some w) : w ≠ [] := by
  revert h
  unfold matchIntentLabel
  refine fun h => scanFor_pred _ (fun r => r ≠ []) (fun s r hr => ?_) content w h
  revert hr
  cases stripCI "intent:".data s with
  | none => intro hr; cases hr
  | some rest =>
    simp only
    split
    · intro hr; cases hr
    · next hne =>
      intro hr
      cases hr
      intro hnil
      rw [hnil] at hne
      simp at hne

theorem parseAIContent_intent_ne_empty (message : List Char) (lead : Lead)
    (content : List Char) : (parseAIContent message lead content).1.intent ≠ "" := by
  unfold parseAIContent
  cases h : matchIntentLabel content with
  | none =>
    simpa [h] using detectIntent_ne_empty message
  | some w =>
    have hw : w ≠ [] := matchIntentLabel_ne_nil content w h
    simp only [h]
    intro hc
    apply hw
    have hdata := congrArg String.data hc
    simp only [String.data] at hdata
    exact List.map_eq_nil_iff.mp hdata

theorem c5_fail_open_fallback (message : List Char) (lead : Lead) :
    (∀ e, resolveResponder true message lead (.netError e) = ruleBasedTriple message lead)
    ∧ (∀ st, resolveResponder true message lead (.httpErr st) = ruleBasedTriple message lead)
    ∧ resolveResponder true message lead (.httpOk none) = ruleBasedTriple message lead
    ∧ resolveResponder true message lead (.httpOk (some ⟨none⟩)) = ruleBasedTriple message lead
    ∧ resolveResponder true message lead (.httpOk (some ⟨some []⟩)) = ruleBasedTriple message lead
    ∧ (∀ rest, resolveResponder true message lead (.httpOk (some ⟨some (⟨none⟩ :: rest)⟩))
        = ruleBasedTriple message lead)
    ∧ (∀ rest, resolveResponder true message lead
        (.httpOk (some ⟨some (⟨some ⟨none⟩⟩ :: rest)⟩)) = ruleBasedTriple message lead)
    ∧ (∀ rest, resolveResponder true message lead
        (.httpOk (some ⟨some (⟨some ⟨some []⟩⟩ :: rest)⟩)) = ruleBasedTriple message lead)
    ∧ (∀ outcome e, generateAIResponse message lead outcome = .error e →
        resolveResponder true message lead outcome = ruleBasedTriple message lead)
    ∧ (∀ outcome, (resolveResponder true message lead outcome).1.intent ≠ "")
    ∧ (ruleBasedTriple message lead).1.intent ≠ "" := by
  refine ⟨fun e => rfl, fun st => rfl, rfl, rfl, rfl, fun rest => rfl, fun rest => rfl,
    fun rest => rfl, ?_, ?_, detectIntent_ne_empty message⟩
  · intro outcome e h
    simp [resolveResponder, h]
  · intro outcome
    cases hgen : generateAIResponse message lead outcome with
    | error e =>
      simpa [resolveResponder, hgen, ruleBasedTriple] using detectIntent_ne_empty message
    | ok r =>
      have hr : ∃ content, r = parseAIContent message lead content := by
        rcases outcome with e | st | parsed
        · cases hgen
        · cases hgen
        · rcases parsed with _ | ⟨data⟩
          · cases hgen
          · rcases data with ⟨choices⟩
            rcases choices with _ | ⟨_ | ⟨c0, rest⟩⟩
            · cases hgen
            · cases hgen
            · rcases c0 with ⟨msg⟩
              rcases msg with _ | ⟨m⟩
              · cases hgen
              · rcases m with ⟨cont⟩
                rcases cont with _ | ⟨content⟩
                · cases hgen
                · by_cases hc : content.isEmpty
                  · rw [show generateAIResponse message lead
                        (.httpOk (some ⟨some (⟨some ⟨some content⟩⟩ :: rest)⟩))
                        = .error "Invalid response from OpenAI API: missing message content".data
                      from by simp [generateAIResponse, hc]] at hgen
                    cases hgen
                  · rw [show generateAIResponse message lead
                        (.httpOk (some ⟨some (⟨some ⟨some content⟩⟩ :: rest)⟩))
                        = .ok (parseAIContent message lead content)
                      from by simp [generateAIResponse, hc]] at hgen
                    cases hgen
                    exact ⟨content, rfl⟩
      rcases hr with ⟨content, rfl⟩
      simpa [resolveResponder, hgen] using
        parseAIContent_intent_ne_empty message lead content

theorem c5_fail_open_fallback_witness :
    resolveResponder true "hi".data ⟨"Ann".data, some 0, 0⟩ (.netError "boom".data)
      = ruleBasedTriple "hi".data ⟨"Ann".data, some 0, 0⟩ :=
  (c5_fail_open_fallback "hi".data
    ⟨"Ann".data, some 0, 0⟩).2.2.2.2.2.2.2.2.1 (.netError "boom".data) "boom".data rfl

theorem c9_label_fallbacks (message : List Char) (lead : Lead) (content : List Char) :
    (matchIntentLabel content = none →
      (parseAIContent message lead content).1.intent = (detectIntentRuleBased message).intent)
    ∧ (matchConfLabel content = none →
      (parseAIContent message lead content).1.confidence = some (3/4)) := by
  constructor
  · intro h
    simp [parseAIContent, h]
  · intro h
    simp [parseAIContent, h]

theorem c9_label_fallbacks_witness :
    matchIntentLabel "hello there".data = none
    ∧ matchConfLabel "hello there".data = none
    ∧ (parseAIContent "hi".data ⟨"Ann".data, some 0, 0⟩ "hello there".data).1.intent
        = (detectIntentRuleBased "hi".data).intent
    ∧ (parseAIContent "hi".data ⟨"Ann".data, some 0, 0⟩ "hello there".data).1.confidence
        = some (3/4) :=
  ⟨by decide, by decide,
   (c9_label_fallbacks "hi".data ⟨"Ann".data, some 0, 0⟩ "hello there".data).1 (by decide),
   (c9_label_fallbacks "hi".data ⟨"Ann".data, some 0, 0⟩ "hello there".data).2 (by decide)⟩

theorem detect_confidence_form (msg : List Char) :
    (detectIntentRuleBased msg).confidence = some (3/5)
    ∨ ∃ e, 0 < (entryMatches (lowList msg) e).length
        ∧ (detectIntentRuleBased msg).confidence = some (entryConf (lowList msg) e) := by
  rcases detect_foldl_spec (lowList msg) intentsTable (0, "general_inquiry", [])
      (le_refl 0) with ⟨heq, _⟩ | ⟨pre, e, post, hsplit, heq, hgt, _, _⟩
  · left
    simp [detectIntentRuleBased, heq]
  · right
    have hm : 0 < (entryMatches (lowList msg) e).length := by
      by_contra hc
      have hnil : entryMatches (lowList msg) e = [] := List.length_eq_zero.mp (by omega)
      have : entryScore (lowList msg) e = 0 := by simp [entryScore, hnil]
      rw [this] at hgt
      exact absurd hgt (by norm_num)
    have hscore : entryScore (lowList msg) e = entryConf (lowList msg) e := by
      simp [entryScore, hm]
    have hne : entryScore (lowList msg) e ≠ 0 := by
      have h4 := entryConf_ge (lowList msg) e hm
      rw [hscore]
      intro hzero
      rw [hzero] at h4
      norm_num at h4
    refine ⟨e, hm, ?_⟩
    simp only [detectIntentRuleBased, heq]
    rw [if_neg hne, hscore]

theorem c8_confidence_range_amended :
    (∀ msg : List Char, ∃ q : ℚ,
        (detectIntentRuleBased msg).confidence = some q ∧ 0 ≤ q ∧ q ≤ 1)
    ∧ (∀ (msg content : List Char) (lead : Lead), matchConfLabel content = none →
        (parseAIContent msg lead content).1.confidence = some (3/4)
        ∧ (0:ℚ) ≤ 3/4 ∧ (3/4:ℚ) ≤ 1)
    ∧ (∀ (msg content : List Char) (lead : Lead) (cap : List Char),
        matchConfLabel content = some cap →
        (parseAIContent msg lead content).1.confidence = parseFloatDD cap) := by
  refine ⟨?_, ?_, ?_⟩
  · intro msg
    rcases detect_confidence_form msg with h | ⟨e, hm, h⟩
    · exact ⟨3/5, h, by norm_num, by norm_num⟩
    · refine ⟨entryConf (lowList msg) e, h, entryConf_nonneg _ _, ?_⟩
      calc entryConf (lowList msg) e ≤ 19/20 := min_le_left _ _
        _ ≤ 1 := by norm_num
  · intro msg content lead h
    exact ⟨by simp [parseAIContent, h], by norm_num, by norm_num⟩
  · intro msg content lead cap h
    simp [parseAIContent, h]

theorem c8_confidence_range_amended_witness :
    (parseAIContent "hi".data ⟨"Ann".data, some 0, 0⟩ "hello".data).1.confidence = some (3/4)
    ∧ (parseAIContent "hi".data ⟨"Ann".data, some 0, 0⟩ "Confidence: 0.9".data).1.confidence
        = parseFloatDD "0.9".data :=
  ⟨(c8_confidence_range_amended.2.1 "hi".data "hello".data
      ⟨"Ann".data, some 0, 0⟩ (by decide)).1,
   c8_confidence_range_amended.2.2 "hi".data "Confidence: 0.9".data
      ⟨"Ann".data, some 0, 0⟩ "0.9".data (by decide)⟩

theorem c8_confidence_counterexample :
    (parseAIContent "hi".data ⟨"Ann".data, some 0, 0⟩ "Confidence: 3".data).1.confidence
      = some 3
    ∧ ¬ ((3:ℚ) ≤ 1) :=
  ⟨by with_unfolding_all decide, by norm_num⟩

theorem lowChar_ws (c : Char) : isWsChar (lowChar c) = isWsChar c := by
  unfold lowChar
  split <;> rfl

theorem begMatchCI_exists {p : List Char} : ∀ {s : List Char},
    begMatchCI p s = true → ∃ w v, s = w ++ v ∧ lowList w = lowList p := by
  induction p with
  | nil =>
    intro s _
    exact ⟨[], s, rfl, rfl⟩
  | cons a p ih =>
    intro s h
    cases s with
    | nil => simp [begMatchCI] at h
    | cons b s' =>
      simp only [begMatchCI, Bool.and_eq_true, beq_iff_eq] at h
      obtain ⟨hab, hrec⟩ := h
      obtain ⟨w, v, hsplit, hlow⟩ := ih hrec
      refine ⟨b :: w, v, by rw [hsplit]; rfl, ?_⟩
      simp only [lowList, List.map_cons]
      rw [← hab]
      exact congrArg (lowChar a :: ·) hlow

theorem begMatchCI_of {p : List Char} : ∀ {w : List Char} (v : List Char),
    lowList w = lowList p → begMatchCI p (w ++ v) = true := by
  induction p with
  | nil =>
    intro w v hlow
    have hw : w = [] := by
      have := congrArg List.length hlow
      simpa [lowList] using this
    subst hw
    rfl
  | cons a p ih =>
    intro w v hlow
    cases w with
    | nil => simp [lowList] at hlow
    | cons b w' =>
      simp only [lowList, List.map_cons, List.cons.injEq] at hlow
      obtain ⟨hab, hrec⟩ := hlow
      simp only [List.cons_append, begMatchCI, Bool.and_eq_true, beq_iff_eq]
      exact ⟨hab.symm, ih v hrec⟩

theorem hasSubCI_exists {p : List Char} : ∀ {s : List Char},
    hasSubCI s p = true → OccCI p s := by
  intro s
  induction s with
  | nil =>
    intro h
    obtain ⟨w, v, hsplit, hlow⟩ := begMatchCI_exists h
    exact ⟨w, hlow, [], v, by simpa using hsplit⟩
  | cons c t ih =>
    intro h
    simp only [hasSubCI, Bool.or_eq_true] at h
    rcases h with h | h
    · obtain ⟨w, v, hsplit, hlow⟩ := begMatchCI_exists h
      exact ⟨w, hlow, [], v, by simpa using hsplit⟩
    · obtain ⟨w, hlow, u, v, hsplit⟩ := ih h
      exact ⟨w, hlow, c :: u, v, by simp [hsplit]⟩

theorem hasSubCI_of_aux {p w : List Char} (hlow : lowList w = lowList p) :
    ∀ (u v : List Char), hasSubCI (u ++ w ++ v) p = true := by
  intro u
  induction u with
  | nil =>
    intro v
    simp only [List.nil_append]
    cases hwv : w ++ v with
    | nil =>
      have hw : w = [] := (List.append_eq_nil.mp hwv).1
      have hpnil : p = [] := by
        subst hw
        have hlen := congrArg List.length hlow
        simp [lowList] at hlen
        exact List.length_eq_zero.mp hlen.symm
      subst hpnil
      rfl
    | cons c t =>
      simp only [hasSubCI, Bool.or_eq_true]
      left
      rw [← hwv]
      exact begMatchCI_of v hlow
  | cons x u' ih =>
    intro v
    simp only [List.cons_append]
    simp only [hasSubCI, Bool.or_eq_true]
    right
    have := ih v
    simpa using this

theorem hasSubCI_of {p s : List Char} (h : OccCI p s) : hasSubCI s p = true := by
  obtain ⟨w, hlow, u, v, hsplit⟩ := h
  rw [hsplit]
  exact hasSubCI_of_aux hlow u v

theorem subP_trans {w m s : List Char} (h1 : SubP w m) (h2 : SubP m s) : SubP w s := by
  obtain ⟨u1, v1, h1⟩ := h1
  obtain ⟨u2, v2, h2⟩ := h2
  exact ⟨u2 ++ u1, v1 ++ v2, by rw [h2, h1]; simp [List.append_assoc]⟩

theorem subP_reverse {w s : List Char} (h : SubP w s) : SubP w.reverse s.reverse := by
  obtain ⟨u, v, huv⟩ := h
  exact ⟨v.reverse, u.reverse, by rw [huv]; simp⟩

theorem occCI_mono {p m s : List Char} (h : OccCI p m) (hms : SubP m s) : OccCI p s := by
  obtain ⟨w, hlow, hsub⟩ := h
  exact ⟨w, hlow, subP_trans hsub hms⟩

theorem occCI_append_left {p q s : List Char} (h : OccCI (p ++ q) s) : OccCI p s := by
  obtain ⟨w, hlow, u, v, hsplit⟩ := h
  refine ⟨w.take p.length, ?_, u, w.drop p.length ++ v, ?_⟩
  · have h1 : lowList (w.take p.length) = (lowList w).take p.length := by
      simp [lowList, List.map_take]
    rw [h1, hlow]
    have h2 : p.length = (lowList p).length := by simp [lowList]
    rw [h2]
    simp [lowList]
  · rw [hsplit]
    have h4 : u ++ w ++ v = u ++ (w.take p.length ++ w.drop p.length) ++ v := by
      rw [List.take_append_drop]
    rw [h4]
    simp only [List.append_assoc]

theorem revSplit (f : Char → Bool) (d : List Char) :
    d = (d.reverse.dropWhile f).reverse ++ (d.reverse.takeWhile f).reverse := by
  have h2 := List.takeWhile_append_dropWhile f d.reverse
  have h3 := congrArg List.reverse h2
  rw [List.reverse_append, List.reverse_reverse] at h3
  exact h3.symm

theorem trimWs_decomp (s : List Char) :
    ∃ a b, s = a ++ trimWs s ++ b
      ∧ (∀ c ∈ a, isWsChar c = true) ∧ (∀ c ∈ b, isWsChar c = true) := by
  refine ⟨s.takeWhile isWsChar,
    ((s.dropWhile isWsChar).reverse.takeWhile isWsChar).reverse, ?_, ?_, ?_⟩
  · calc s = s.takeWhile isWsChar ++ s.dropWhile isWsChar :=
        (List.takeWhile_append_dropWhile isWsChar s).symm
      _ = s.takeWhile isWsChar
          ++ (((s.dropWhile isWsChar).reverse.dropWhile isWsChar).reverse
              ++ ((s.dropWhile isWsChar).reverse.takeWhile isWsChar).reverse) := by
        rw [← revSplit isWsChar (s.dropWhile isWsChar)]
      _ = s.takeWhile isWsChar ++ trimWs s
          ++ ((s.dropWhile isWsChar).reverse.takeWhile isWsChar).reverse := by
        rw [List.append_assoc]
        rfl
  · intro c hc
    exact List.mem_takeWhile_imp hc
  · intro c hc
    rw [List.mem_reverse] at hc
    exact List.mem_takeWhile_imp hc

theorem subP_of_trimWs (s : List Char) : SubP (trimWs s) s := by
  obtain ⟨a, b, hdecomp, _, _⟩ := trimWs_decomp s
  exact ⟨a, b, hdecomp⟩

theorem subP_of_stripTrailJunk (s : List Char) : SubP (stripTrailJunk s) s := by
  refine ⟨[], (s.reverse.takeWhile isJunkChar).reverse, ?_⟩
  simpa using revSplit isJunkChar s

theorem mem_trimWs {c : Char} {s : List Char} (h : c ∈ trimWs s) : c ∈ s := by
  obtain ⟨a, b, hdecomp, _, _⟩ := trimWs_decomp s
  rw [hdecomp]
  simp [h]

theorem occCI_nil {p : List Char} (hp : p ≠ []) : ¬ OccCI p [] := by
  rintro ⟨w, hlow, u, v, hsplit⟩
  have h1 : u ++ w = [] := (List.append_eq_nil.mp hsplit.symm).1
  have hw : w = [] := (List.append_eq_nil.mp h1).2
  subst hw
  apply hp
  have hlen := congrArg List.length hlow
  simp [lowList] at hlen
  exact List.length_eq_zero.mp hlen.symm

theorem subP_strip_left (c : Char) (w' : List Char) (hc : isWsChar c = false) :
    ∀ (a z : List Char), (∀ x ∈ a, isWsChar x = true) →
      SubP (c :: w') (a ++ z) → SubP (c :: w') z := by
  intro a
  induction a with
  | nil =>
    intro z _ h
    simpa using h
  | cons x a ih =>
    intro z ha h
    obtain ⟨u, v, huv⟩ := h
    cases u with
    | nil =>
      simp only [List.nil_append, List.cons_append, List.cons.injEq] at huv
      have hx : isWsChar x = true := ha x (List.mem_cons_self _ _)
      rw [huv.1, hc] at hx
      cases hx
    | cons y u' =>
      simp only [List.cons_append, List.cons.injEq] at huv
      exact ih z (fun t ht => ha t (List.mem_cons_of_mem _ ht)) ⟨u', v, huv.2⟩

theorem subP_strip_right (d : Char) (w2 : List Char) (hd : isWsChar d = false)
    (z b : List Char) (hb : ∀ x ∈ b, isWsChar x = true)
    (h : SubP (w2 ++ [d]) (z ++ b)) : SubP (w2 ++ [d]) z := by
  have hr := subP_reverse h
  rw [List.reverse_append, List.reverse_append] at hr
  simp only [List.reverse_cons, List.reverse_nil, List.nil_append] at hr
  have hz := subP_strip_left d w2.reverse hd b.reverse z.reverse
      (fun x hx => hb x (List.mem_reverse.mp hx)) hr
  have hback := subP_reverse hz
  simpa using hback

theorem subP_trimWs_occ (c d : Char) (w1 w2 : List Char) (hw : c :: w1 = w2 ++ [d])
    (hc : isWsChar c = false) (hd : isWsChar d = false)
    {s : List Char} (h : SubP (c :: w1) s) : SubP (c :: w1) (trimWs s) := by
  obtain ⟨a, b, hdecomp, ha, hb⟩ := trimWs_decomp s
  rw [hdecomp] at h
  rw [List.append_assoc] at h
  have h2 := subP_strip_left c w1 hc a (trimWs s ++ b) ha h
  rw [hw] at h2 ⊢
  exact subP_strip_right d w2 hd (trimWs s) b hb h2

theorem sep_fit (sep : Char) : ∀ (w2 : List Char), (∀ x ∈ w2, x ≠ sep) →
    ∀ (v a' b : List Char), w2 ++ v = a' ++ sep :: b → ∃ v', a' = w2 ++ v' := by
  intro w2
  induction w2 with
  | nil =>
    intro _ v a' b _
    exact ⟨a', rfl⟩
  | cons c w2 ih =>
    intro hfree v a' b heq
    cases a' with
    | nil =>
      simp only [List.cons_append, List.nil_append, List.cons.injEq] at heq
      exact absurd heq.1 (hfree c (List.mem_cons_self _ _))
    | cons y a'' =>
      simp only [List.cons_append, List.cons.injEq] at heq
      obtain ⟨hcy, hrest⟩ := heq
      obtain ⟨v', hv'⟩ := ih (fun x hx => hfree x (List.mem_cons_of_mem _ hx)) v a'' b hrest
      refine ⟨v', ?_⟩
      rw [hv', ← hcy]
      rfl

theorem subP_sep_split (sep : Char) (w : List Char) (hw : ∀ x ∈ w, x ≠ sep) :
    ∀ (a b : List Char), SubP w (a ++ sep :: b) → SubP w a ∨ SubP w b := by
  intro a
  induction a with
  | nil =>
    intro b h
    obtain ⟨u, v, huv⟩ := h
    simp only [List.nil_append] at huv
    cases u with
    | nil =>
      cases w with
      | nil =>
        left
        exact ⟨[], [], rfl⟩
      | cons c w' =>
        simp only [List.nil_append, List.cons_append, List.cons.injEq] at huv
        exact absurd huv.1.symm (hw c (List.mem_cons_self _ _))
    | cons y u' =>
      right
      simp only [List.cons_append, List.cons.injEq] at huv
      exact ⟨u', v, huv.2⟩
  | cons x a' ih =>
    intro b h
    obtain ⟨u, v, huv⟩ := h
    cases u with
    | nil =>
      cases w with
      | nil =>
        left
        exact ⟨[], x :: a', rfl⟩
      | cons c w' =>
        simp only [List.cons_append, List.nil_append, List.cons.injEq] at huv
        obtain ⟨hxc, hrest⟩ := huv
        obtain ⟨v', hv'⟩ := sep_fit sep w'
            (fun t ht => hw t (List.mem_cons_of_mem _ ht)) v a' b hrest.symm
        left
        refine ⟨[], v', ?_⟩
        rw [hv', hxc]
        rfl
    | cons y u' =>
      simp only [List.cons_append, List.cons.injEq] at huv
      obtain ⟨hxy, hrest⟩ := huv
      rcases ih b ⟨u', v, hrest⟩ with hL | hR
      · left
        obtain ⟨u2, v2, h2⟩ := hL
        refine ⟨x :: u2, v2, ?_⟩
        rw [h2]
        rfl
      · right
        exact hR

theorem subP_joinSp (w : List Char) (hw : ∀ x ∈ w, x ≠ ' ') (hne : w ≠ []) :
    ∀ ls, SubP w (joinSp ls) → ∃ l, l ∈ ls ∧ SubP w l := by
  intro ls
  induction ls with
  | nil =>
    intro h
    obtain ⟨u, v, huv⟩ := h
    exfalso
    apply hne
    have h1 : u ++ w = [] := (List.append_eq_nil.mp huv.symm).1
    exact (List.append_eq_nil.mp h1).2
  | cons l ls ih =>
    intro h
    cases ls with
    | nil =>
      exact ⟨l, List.mem_cons_self _ _, by simpa [joinSp] using h⟩
    | cons l2 ls' =>
      have hj : joinSp (l :: l2 :: ls') = l ++ ' ' :: joinSp (l2 :: ls') := rfl
      rw [hj] at h
      rcases subP_sep_split ' ' w hw l (joinSp (l2 :: ls')) h with hL | hR
      · exact ⟨l, List.mem_cons_self _ _, hL⟩
      · obtain ⟨l', hmem, hsub⟩ := ih hR
        exact ⟨l', List.mem_cons_of_mem _ hmem, hsub⟩

theorem splitLines_cons (c : Char) (t : List Char) (hc1 : c ≠ '\n')
    (hnr : ∀ t2, c = '\r' → t ≠ '\n' :: t2) :
    splitLines (c :: t)
      = match splitLines t with
        | [] => [[c]]
        | l :: ls => (c :: l) :: ls := by
  conv_lhs => unfold splitLines
  split
  · next heq =>
    injection heq
  · next t2 heq =>
    injection heq with h1 h2
    exact absurd h2 (hnr t2 h1)
  · next t2 heq =>
    injection heq with h1 h2
    exact absurd h1 hc1
  · rename_i x c2 t2 hd1 hd2 heq
    injection heq with h1 h2
    rw [h1, h2]

theorem splitLines_no_newline (s : List Char) (h : ∀ c ∈ s, c ≠ '\n') :
    splitLines s = [s] := by
  induction s with
  | nil => rfl
  | cons c t ih =>
    have hc : c ≠ '\n' := h c (List.mem_cons_self _ _)
    have ht : ∀ x ∈ t, x ≠ '\n' := fun x hx => h x (List.mem_cons_of_mem _ hx)
    have hnr : ∀ t2, c = '\r' → t ≠ '\n' :: t2 := by
      intro t2 _ hteq
      have : ('\n' : Char) ≠ '\n' := by
        rw [hteq] at ht
        exact ht '\n' (List.mem_cons_self _ _)
      exact absurd rfl this
    rw [splitLines_cons c t hc hnr, ih ht]

theorem mem_low_ne (w pat : List Char) (hlow : lowList w = lowList pat) (sep : Char)
    (hsep : lowChar sep = sep) (hpat : sep ∉ lowList pat) : ∀ x ∈ w, x ≠ sep := by
  intro x hx hxeq
  subst hxeq
  apply hpat
  have hmem : lowChar x ∈ lowList w := List.mem_map_of_mem lowChar hx
  rw [hlow, hsep] at hmem
  exact hmem

theorem occCI_line_reject (pat line : List Char) (ph pl : Char) (pt pr : List Char)
    (hp : lowList pat = ph :: pt)
    (hpr : (lowList pat).reverse = pl :: pr)
    (hph : isWsChar ph = false) (hpl : isWsChar pl = false)
    (hline : hasSubCI (trimWs line) pat = false) :
    ¬ OccCI pat line := by
  rintro ⟨w, hlow, hsub⟩
  cases w with
  | nil =>
    rw [hp] at hlow
    exact absurd hlow.symm (by simp [lowList])
  | cons c w1 =>
    have hc : lowChar c = ph := by
      have hx := hlow
      rw [hp] at hx
      simp only [lowList, List.map_cons, List.cons.injEq] at hx
      exact hx.1
    have hrev : lowList (c :: w1).reverse = pl :: pr := by
      have : lowList (c :: w1).reverse = (lowList (c :: w1)).reverse := by
        simp [lowList]
      rw [this, hlow, hpr]
    cases hwrev : (c :: w1).reverse with
    | nil => simp at hwrev
    | cons d w2 =>
      have hd : lowChar d = pl := by
        rw [hwrev] at hrev
        simp only [lowList, List.map_cons, List.cons.injEq] at hrev
        exact hrev.1
      have hw2 : c :: w1 = w2.reverse ++ [d] := by
        have := congrArg List.reverse hwrev
        simpa using this
      have hcns : isWsChar c = false := by
        rw [← lowChar_ws c, hc]
        exact hph
      have hdns : isWsChar d = false := by
        rw [← lowChar_ws d, hd]
        exact hpl
      have hsub2 : SubP (c :: w1) (trimWs line) :=
        subP_trimWs_occ c d w1 w2.reverse hw2 hcns hdns hsub
      have : hasSubCI (trimWs line) pat = true := hasSubCI_of ⟨c :: w1, hlow, hsub2⟩
      rw [hline] at this
      cases this

theorem c7_cleanup_amended :
    (∀ r : List Char, hasSubCI (cleanupReply r) "suggested next action".data = false)
    ∧ (∀ r : List Char, (∀ c ∈ r, c ≠ '\n') →
        hasSubCI (cleanupReply r) "next action:".data = false) := by
  constructor
  · intro r
    cases hb : hasSubCI (cleanupReply r) "suggested next action".data with
    | false => rfl
    | true =>
      exfalso
      have hocc := hasSubCI_exists hb
      have hsplitpat : "suggested next action".data
          = "suggested".data ++ " next action".data := by decide
      rw [hsplitpat] at hocc
      have hocc2 := occCI_append_left hocc
      obtain ⟨kept, hkept, hcr⟩ : ∃ kept,
          kept = (splitLines (match cleanupSearch r with
            | some i => trimWs (r.take i)
            | none => r)).filter keepLine
          ∧ cleanupReply r = trimWs (stripTrailJunk (trimWs (joinSp kept))) :=
        ⟨_, rfl, rfl⟩
      rw [hcr] at hocc2
      have hsub1 : SubP (trimWs (stripTrailJunk (trimWs (joinSp kept)))) (joinSp kept) :=
        subP_trans (subP_of_trimWs _)
          (subP_trans (subP_of_stripTrailJunk _) (subP_of_trimWs _))
      have hocc3 : OccCI "suggested".data (joinSp kept) := occCI_mono hocc2 hsub1
      obtain ⟨w, hlow, hsubw⟩ := hocc3
      have hwsp : ∀ x ∈ w, x ≠ ' ' :=
        mem_low_ne w "suggested".data hlow ' ' (by decide) (by decide)
      have hwne : w ≠ [] := by
        intro hw
        rw [hw] at hlow
        exact absurd hlow (by decide)
      obtain ⟨line, hmemline, hsubline⟩ := subP_joinSp w hwsp hwne kept hsubw
      rw [hkept] at hmemline
      have hkl : keepLine line = true := (List.mem_filter.mp hmemline).2
      have hline : hasSubCI (trimWs line) "suggested".data = false := by
        have hk := hkl
        simp only [keepLine, Bool.and_eq_true, Bool.not_eq_true'] at hk
        exact hk.1.2
      exact occCI_line_reject "suggested".data line 's' 'd' "uggested".data "etseggus".data
          (by decide) (by decide) (by decide) (by decide) hline ⟨w, hlow, hsubline⟩
  · intro r hr
    cases hb : hasSubCI (cleanupReply r) "next action:".data with
    | false => rfl
    | true =>
      exfalso
      obtain ⟨reply1, hreply1def, hcr⟩ : ∃ reply1,
          reply1 = (match cleanupSearch r with
            | some i => trimWs (r.take i)
            | none => r)
          ∧ cleanupReply r
              = trimWs (stripTrailJunk (trimWs (joinSp
                  ((splitLines reply1).filter keepLine)))) :=
        ⟨_, rfl, rfl⟩
      have hr1 : ∀ c ∈ reply1, c ≠ '\n' := by
        intro c hc
        rw [hreply1def] at hc
        revert hc
        cases cleanupSearch r with
        | none =>
          intro hc
          exact hr c hc
        | some i =>
          intro hc
          exact hr c (List.take_subset i r (mem_trimWs hc))
      have hsl : splitLines reply1 = [reply1] := splitLines_no_newline reply1 hr1
      rw [hsl] at hcr
      by_cases hkeep : keepLine reply1 = true
      · have hfilter : ([reply1] : List (List Char)).filter keepLine = [reply1] := by
          simp [List.filter, hkeep]
        rw [hfilter] at hcr
        have hjoin : joinSp [reply1] = reply1 := rfl
        rw [hjoin] at hcr
        have hocc := hasSubCI_exists hb
        rw [hcr] at hocc
        have hsub1 : SubP (trimWs (stripTrailJunk (trimWs reply1))) reply1 :=
          subP_trans (subP_of_trimWs _)
            (subP_trans (subP_of_stripTrailJunk _) (subP_of_trimWs _))
        have hocc2 : OccCI "next action:".data reply1 := occCI_mono hocc hsub1
        have hsplitpat : "next action:".data = "next action".data ++ ":".data := by decide
        rw [hsplitpat] at hocc2
        have hocc3 := occCI_append_left hocc2
        have hline : hasSubCI (trimWs reply1) "next action".data = false := by
          have hk := hkeep
          simp only [keepLine, Bool.and_eq_true, Bool.not_eq_true'] at hk
          exact hk.2
        exact occCI_line_reject "next action".data reply1 'n' 'n'
            "ext action".data "oitca txen".data
            (by decide) (by decide) (by decide) (by decide) hline hocc3
      · have hkeepf : keepLine reply1 = false := by
          cases h2 : keepLine reply1
          · rfl
          · exact absurd h2 hkeep
        have hfilter : ([reply1] : List (List Char)).filter keepLine = [] := by
          simp [List.filter, hkeepf]
        rw [hfilter] at hcr
        have hempty : cleanupReply r = [] := by
          rw [hcr]
          rfl
        rw [hempty] at hb
        exact absurd hb (by decide)

theorem c7_cleanup_amended_witness :
    (∀ c ∈ "Tell me more".data, c ≠ '\n')
    ∧ hasSubCI (cleanupReply "Tell me more".data) "next action:".data = false
    ∧ hasSubCI (cleanupReply "Tell me more".data) "suggested next action".data = false :=
  ⟨by decide, c7_cleanup_amended.2 "Tell me more".data (by decide),
   c7_cleanup_amended.1 "Tell me more".data⟩

theorem c7_cleanup_counterexample :
    hasSubCI ((parseAIContent "hi".data ⟨"Ann".data, some 0, 0⟩
        "Response: hello next\naction: go".data).2.1) "next action:".data = true := by
  decide
